import Mathlib

/-!
Verification of the image-preprocessing pipeline of this repository
(`pretty_oof_preprocess` in `pretty_oof_preprocess.py`).

The pipeline is embedded shallowly:

* an image (a numpy array handed to OpenCV) is a `Buf`: explicit height,
  width and channel count plus a flat row-major, channel-fastest list of
  sample values;
* sample values are rationals: every float value the pipeline manipulates
  is modelled by the exact rational the written formula denotes;
* 8-bit stores (cv2.normalize to CV_8U, convertScaleAbs, addWeighted on
  uint8 inputs, the normalized boxFilter inside adaptiveThreshold) are
  modelled by OpenCV's saturate_cast of cvRound: round half to even,
  then clamp to 0..255 (`sat8`);
* fallible library calls return `Except CVErr Buf`.  The unguarded
  division at line 42 of the source (by the gradient maximum) is modelled
  as the error `CVErr.nanDivision` when that maximum is 0: in the source
  this is numpy 0/0, which floods the buffer with NaN, after which no
  stage output is a defined number.
-/

set_option maxRecDepth 8000

attribute [local semireducible] Rat.add Rat.sub Rat.mul Rat.inv

/-- Error values of the embedded OpenCV/numpy calls, tagged by the call
that raises (or, for nanDivision, poisons) the computation. -/
inductive CVErr where
  | missingInput
  | emptyInput
  | nanDivision
  | badSrcType
  | badBlockSize
  deriving DecidableEq, Repr

deriving instance DecidableEq for Except

/-- An image buffer: height, width, channel count, and the samples as a
flat row-major, channel-fastest list (numpy layout of an H x W x C array). -/
structure Buf where
  h : ℕ
  w : ℕ
  c : ℕ
  data : List ℚ
  deriving DecidableEq, Repr

/-- The sample of buffer b at row r, column q, channel ch (0 outside). -/
def Buf.px (b : Buf) (r q ch : ℕ) : ℚ :=
  b.data.getD ((r * b.w + q) * b.c + ch) 0

/-- Build an h x w x c buffer from a function of (row, column, channel). -/
def mkBuf (h w c : ℕ) (f : ℕ → ℕ → ℕ → ℚ) : Buf :=
  ⟨h, w, c, (List.range (h * w * c)).map (fun n => f (n / (w * c)) (n / c % w) (n % c))⟩

/-- Apply f to every sample of b (an elementwise numpy / OpenCV op). -/
def mapVals (f : ℚ → ℚ) (b : Buf) : Buf :=
  ⟨b.h, b.w, b.c, b.data.map f⟩

/-- Explicit maximum on the integers (kernel-computable). -/
def imax (a b : ℤ) : ℤ := if a ≤ b then b else a

/-- Explicit minimum on the integers (kernel-computable). -/
def imin (a b : ℤ) : ℤ := if a ≤ b then a else b

/-- Explicit maximum on the rationals (kernel-computable). -/
def qmax (a b : ℚ) : ℚ := if a ≤ b then b else a

/-- Explicit minimum on the rationals (kernel-computable). -/
def qmin (a b : ℚ) : ℚ := if a ≤ b then a else b

/-- cvRound: round to nearest, ties to even (the rounding of OpenCV's
saturate_cast and convertTo). -/
def rne (q : ℚ) : ℤ :=
  if q - ⌊q⌋ < 1/2 then ⌊q⌋
  else if (1:ℚ)/2 < q - ⌊q⌋ then ⌊q⌋ + 1
  else if ⌊q⌋ % 2 = 0 then ⌊q⌋ else ⌊q⌋ + 1

/-- saturate_cast to uint8: cvRound then clamp to 0..255. -/
def sat8 (q : ℚ) : ℚ :=
  ((imin 255 (imax 0 (rne q)) : ℤ) : ℚ)

/-- DBL_EPSILON, the threshold cv::normalize compares the value range
against before dividing (a constant buffer rescales with scale 0). -/
def epsF64 : ℚ := 1 / 2 ^ 52

/-- The maximum of a list of samples, 0 on the empty list (numpy .max()
and cv::minMaxIdx are only reached on nonempty buffers). -/
def listMax : List ℚ → ℚ
  | [] => 0
  | x :: xs => xs.foldl qmax x

/-- The minimum of a list of samples, 0 on the empty list. -/
def listMin : List ℚ → ℚ
  | [] => 0
  | x :: xs => xs.foldl qmin x

/-- cv2.normalize(src, None, 0, 255, NORM_MINMAX) followed by the store
into an integer image (lines 35, 46, 59 and 73 of the source): an affine
min-max stretch to [0, 255] with scale 0 when the range is at most
DBL_EPSILON (so a constant buffer maps to all zero), each output sample
stored with saturate_cast of cvRound. -/
def normalizeMinMax (b : Buf) : Buf :=
  let lo := listMin b.data
  let hi := listMax b.data
  let scale : ℚ := if epsF64 < hi - lo then 255 / (hi - lo) else 0
  let shift : ℚ := 0 - lo * scale
  ⟨b.h, b.w, b.c, b.data.map (fun v => sat8 (v * scale + shift))⟩

/-- BORDER_REFLECT_101 index mapping (gfedcb|abcdefgh|gfedcba), the
default border of cv2.Sobel; one reflection step, which is exhaustive for
the radius-1 kernel used here, and 0 when the axis has a single element. -/
def ref101 (len : ℕ) (i : ℤ) : ℕ :=
  if len = 1 then 0
  else if i < 0 then (-i).toNat
  else if (len : ℤ) ≤ i then (2 * (len : ℤ) - 2 - i).toNat
  else i.toNat

/-- The smoothing factor [1, 2, 1] of the 3x3 Sobel kernel. -/
def sobelSmooth : ℕ → ℤ
  | 0 => 1
  | 1 => 2
  | 2 => 1
  | _ => 0

/-- The derivative factor [-1, 0, 1] of the 3x3 Sobel kernel. -/
def sobelDeriv : ℕ → ℤ
  | 0 => -1
  | 1 => 0
  | 2 => 1
  | _ => 0

/-- cv2.Sobel(src, CV_32F, 1, 0, ksize=3) when horiz, else (0, 1): the
3x3 separable derivative kernel correlated over the image per channel,
borders reflected with BORDER_REFLECT_101; float32 output is exact on
the integer samples reaching it, so it stays rational. -/
def sobel3 (horiz : Bool) (b : Buf) : Buf :=
  mkBuf b.h b.w b.c (fun r q ch =>
    ∑ i in Finset.range 3, ∑ j in Finset.range 3,
      ((if horiz then sobelSmooth i * sobelDeriv j else sobelDeriv i * sobelSmooth j : ℤ) : ℚ)
        * b.px (ref101 b.h ((r : ℤ) + i - 1)) (ref101 b.w ((q : ℤ) + j - 1)) ch)

/-- cv2.convertScaleAbs (lines 39-40): per sample, absolute value stored
with unsigned 8-bit saturation. -/
def cvAbs8 (v : ℚ) : ℚ := sat8 |v|

/-- cv2.addWeighted(x, 0.5, y, 0.5, 0) on uint8 inputs (line 41): the
equal-weighted average, stored with unsigned 8-bit saturation. -/
def addWeightedHalf (x y : Buf) : Buf :=
  mkBuf x.h x.w x.c (fun r q ch =>
    sat8 ((1:ℚ)/2 * x.px r q ch + (1:ℚ)/2 * y.px r q ch))

/-- Line 42 of the source: (1 - m / m.max()) * 255.  The division is not
guarded: when the maximum is 0 the source computes 0/0, numpy emits an
invalid-value warning and the whole buffer becomes NaN; that poisoned,
undefined state is modelled as the error nanDivision. -/
def gradInvert (g : Buf) : Except CVErr Buf :=
  if listMax g.data = 0 then .error .nanDivision
  else .ok (mapVals (fun v => (1 - v / listMax g.data) * 255) g)

/-- The fixed blend weight of line 43. -/
def ALPHA : ℚ := 21 / 100

/-- Line 44: mean_image = ALPHA * gradient_magnitude + (1 - ALPHA) * image,
per sample. -/
def blendStage (g n : Buf) : Buf :=
  mkBuf n.h n.w n.c (fun r q ch =>
    ALPHA * g.px r q ch + (1 - ALPHA) * n.px r q ch)

/-- Lines 37-42 as one stage: Sobel x and y responses on the normalized
image, absolute values with 8-bit saturation, equal-weighted average,
then the inversion-rescale with the unguarded division. -/
def gradientStage (n : Buf) : Except CVErr Buf :=
  gradInvert (addWeightedHalf (mapVals cvAbs8 (sobel3 true n)) (mapVals cvAbs8 (sobel3 false n)))

/-- Lines 49-51: the count of samples of b falling in histogram bin i,
a bin holding the samples whose floor quotient by 16 is i
(bin_indices = mean_image // 16 followed by np.bincount). -/
def histCounts (b : Buf) (i : ℕ) : ℕ :=
  b.data.countP (fun v => decide (⌊v / 16⌋ = (i : ℤ)))

/-- np.argmax over f 0, ..., f (n-1): the index of the maximum value,
the earliest one when several bins tie. -/
def argmaxFirst (f : ℕ → ℕ) (n : ℕ) : ℕ :=
  (List.range n).foldl (fun best i => if f best < f i then i else best) 0

/-- Line 51: np.argmax(counts[:16]), the modal histogram bin. -/
def modeBin (b : Buf) : ℕ := argmaxFirst (histCounts b) 16

/-- Lines 52-54: adjustment = max_bin * 16 and
adjusted_image = np.minimum(mean_image, adjustment), elementwise. -/
def histCap (b : Buf) : Buf :=
  ⟨b.h, b.w, b.c, b.data.map (fun v => qmin v (16 * (modeBin b : ℚ)))⟩

/-- BORDER_REPLICATE index mapping (aaaaaa|abcdefgh|hhhhhhh), the border
of the boxFilter inside cv::adaptiveThreshold. -/
def clampIdx (len : ℕ) (i : ℤ) : ℕ :=
  if i < 0 then 0
  else if (len : ℤ) ≤ i then len - 1
  else i.toNat

/-- The local mean of the block x block replicate-padded neighborhood
centred at (r, q): the normalized boxFilter of cv::adaptiveThreshold on a
uint8 image, whose output sample is stored with 8-bit saturation. -/
def boxMeanRep (b : Buf) (block : ℕ) (r q : ℕ) : ℚ :=
  sat8 ((∑ i in Finset.range block, ∑ j in Finset.range block,
      b.px (clampIdx b.h ((r : ℤ) + i - (block / 2 : ℕ)))
           (clampIdx b.w ((q : ℤ) + j - (block / 2 : ℕ))) 0)
    / ((block : ℚ) * block))

/-- cv2.adaptiveThreshold(src, 255, ADAPTIVE_THRESH_MEAN_C, THRESH_BINARY,
block, offC) (lines 63-70): requires a single-channel 8-bit source and an
odd block size above 1; each output sample is 255 when
src - mean > -offC (OpenCV's lookup table tab[i] = (i - 255 > -C)), else 0. -/
def adaptiveThresholdMean (b : Buf) (block : ℕ) (offC : ℤ) : Except CVErr Buf :=
  if b.c ≠ 1 then .error .badSrcType
  else if block % 2 ≠ 1 ∨ block ≤ 1 then .error .badBlockSize
  else .ok (mkBuf b.h b.w 1 (fun r q _ =>
    if (-(offC : ℚ)) < b.px r q 0 - boxMeanRep b block r q then 255 else 0))

/-- Lines 35-61 of the source: everything before the adaptive threshold.
The entry minMax of line 35 asserts a nonempty buffer (cv::minMaxIdx
rejects an empty Mat). -/
def preThreshold (b : Buf) : Except CVErr Buf :=
  if b.h = 0 ∨ b.w = 0 ∨ b.c = 0 then .error CVErr.emptyInput
  else
    let n := normalizeMinMax b
    match gradientStage n with
    | .error e => .error e
    | .ok g2 =>
      .ok (normalizeMinMax (histCap (normalizeMinMax (blendStage g2 n))))

/-- Lines 35-75: the whole computation of the returned mask. -/
def pipelineStages (b : Buf) : Except CVErr Buf :=
  match preThreshold b with
  | .error e => .error e
  | .ok b6 =>
    match adaptiveThresholdMean b6 149 21 with
    | .error e => .error e
    | .ok bin => .ok (normalizeMinMax bin)

/-- The argument of the Python function: either a missing image (None)
or an array. -/
inductive PyInput where
  | missing
  | arr (b : Buf)
  deriving DecidableEq, Repr

/-- pretty_oof_preprocess without the optional save: a missing input is
rejected by the cv2.normalize binding before anything runs. -/
def pretty_oof_result : PyInput → Except CVErr Buf
  | PyInput.missing => Except.error CVErr.missingInput
  | PyInput.arr b => pipelineStages b

/-- A file system for the optional save: file contents by path. -/
def FSys : Type := String → Option (List ℚ)

/-- The file the mask is written to under save_path (line 77). -/
def saveFile (d : String) : String := d ++ "/pretty_oof_preprocess.png"

/-- Lines 76-79: compute the mask; when save_path is given, cv2.imwrite
writes it (overwriting an existing file) if the target is writable and
merely returns False otherwise - the source ignores that Bool - and the
mask is returned either way. -/
def pretty_oof_run (inp : PyInput) (save : Option String) (fs : FSys) (writable : Bool) :
    Except CVErr Buf × FSys :=
  match pretty_oof_result inp with
  | .error e => (.error e, fs)
  | .ok mask =>
    match save with
    | none => (.ok mask, fs)
    | some d =>
      (.ok mask,
        if writable then (fun p => if p = saveFile d then some mask.data else fs p) else fs)

/-- Is the input missing, or an empty array (a zero dimension)? -/
def isMissingOrEmpty : PyInput → Bool
  | PyInput.missing => true
  | PyInput.arr b => decide (b.h = 0) || decide (b.w = 0) || decide (b.c = 0)

/-- A 1 x 3 single-channel example image. -/
def ex13 : Buf := ⟨1, 3, 1, [0, 128, 255]⟩

/-- The mask the pipeline computes on ex13. -/
def exOut : Buf := ⟨1, 3, 1, [0, 0, 0]⟩

/-- A 1 x 3 three-channel (wrong-rank) example image. -/
def ex3ch : Buf := ⟨1, 3, 3, [0, 0, 0, 128, 128, 128, 255, 255, 255]⟩

/-- A constant 2 x 2 image. -/
def cimg : Buf := ⟨2, 2, 1, [7, 7, 7, 7]⟩

/-! ### Buffer access and shape lemmas -/

theorem mkBuf_h (h w c : ℕ) (f : ℕ → ℕ → ℕ → ℚ) : (mkBuf h w c f).h = h := rfl

theorem mkBuf_w (h w c : ℕ) (f : ℕ → ℕ → ℕ → ℚ) : (mkBuf h w c f).w = w := rfl

theorem mkBuf_c (h w c : ℕ) (f : ℕ → ℕ → ℕ → ℚ) : (mkBuf h w c f).c = c := rfl

theorem mkBuf_length (h w c : ℕ) (f : ℕ → ℕ → ℕ → ℚ) :
    (mkBuf h w c f).data.length = h * w * c := by
  simp [mkBuf]

theorem mapVals_h (f : ℚ → ℚ) (b : Buf) : (mapVals f b).h = b.h := rfl

theorem mapVals_w (f : ℚ → ℚ) (b : Buf) : (mapVals f b).w = b.w := rfl

theorem mapVals_c (f : ℚ → ℚ) (b : Buf) : (mapVals f b).c = b.c := rfl

theorem mapVals_length (f : ℚ → ℚ) (b : Buf) :
    (mapVals f b).data.length = b.data.length := by
  simp [mapVals]

theorem normalizeMinMax_h (b : Buf) : (normalizeMinMax b).h = b.h := rfl

theorem normalizeMinMax_w (b : Buf) : (normalizeMinMax b).w = b.w := rfl

theorem normalizeMinMax_c (b : Buf) : (normalizeMinMax b).c = b.c := rfl

theorem histCap_h (b : Buf) : (histCap b).h = b.h := rfl

theorem histCap_w (b : Buf) : (histCap b).w = b.w := rfl

theorem histCap_c (b : Buf) : (histCap b).c = b.c := rfl

/-- The flat index of an in-range (row, column, channel) triple is in range. -/
theorem flatIdx_lt (h w c r q ch : ℕ) (hr : r < h) (hq : q < w) (hch : ch < c) :
    (r * w + q) * c + ch < h * w * c := by
  have h1 : (r * w + q) * c + ch < (r * w + q) * c + c := by omega
  have h2 : (r * w + q) * c + c = (r * w + q + 1) * c := by ring
  have h3 : r * w + q + 1 ≤ h * w := by
    have : r * w + w ≤ h * w := by
      have : (r + 1) * w ≤ h * w := Nat.mul_le_mul_right w hr
      calc r * w + w = (r + 1) * w := by ring
        _ ≤ h * w := this
    omega
  calc (r * w + q) * c + ch < (r * w + q + 1) * c := by omega
    _ ≤ (h * w) * c := Nat.mul_le_mul_right c h3
    _ = h * w * c := by ring

/-- Reading an in-range sample of a built buffer gives the generating
function at that triple. -/
theorem px_mkBuf (h w c : ℕ) (f : ℕ → ℕ → ℕ → ℚ) (r q ch : ℕ)
    (hr : r < h) (hq : q < w) (hch : ch < c) :
    (mkBuf h w c f).px r q ch = f r q ch := by
  have hw : 0 < w := lt_of_le_of_lt (Nat.zero_le q) hq
  have hc : 0 < c := lt_of_le_of_lt (Nat.zero_le ch) hch
  have hidx : (r * w + q) * c + ch < h * w * c := flatIdx_lt h w c r q ch hr hq hch
  show (mkBuf h w c f).data.getD ((r * w + q) * c + ch) 0 = f r q ch
  rw [mkBuf]
  rw [List.getD_eq_getElem?_getD, List.getElem?_map, List.getElem?_range hidx]
  simp only [Option.map_some', Option.getD_some]
  have e3 : ((r * w + q) * c + ch) % c = ch := by
    rw [show (r * w + q) * c + ch = c * (r * w + q) + ch by ring, Nat.mul_add_mod]
    exact Nat.mod_eq_of_lt hch
  have ediv : ((r * w + q) * c + ch) / c = r * w + q := by
    rw [show (r * w + q) * c + ch = c * (r * w + q) + ch by ring, Nat.mul_add_div hc,
      Nat.div_eq_of_lt hch]
    omega
  have e2 : ((r * w + q) * c + ch) / c % w = q := by
    rw [ediv, show r * w + q = w * r + q by ring, Nat.mul_add_mod]
    exact Nat.mod_eq_of_lt hq
  have e1 : ((r * w + q) * c + ch) / (w * c) = r := by
    have hrem : q * c + ch < w * c := by
      have h1 : (q + 1) * c = q * c + c := by ring
      have h2 : (q + 1) * c ≤ w * c := Nat.mul_le_mul_right c hq
      omega
    rw [show (r * w + q) * c + ch = (w * c) * r + (q * c + ch) by ring,
      Nat.mul_add_div (Nat.mul_pos hw hc), Nat.div_eq_of_lt hrem]
    omega
  rw [e1, e2, e3]

/-- Reading an in-range sample of an elementwise-mapped buffer. -/
theorem px_mapVals (f : ℚ → ℚ) (b : Buf) (r q ch : ℕ)
    (hlen : (r * b.w + q) * b.c + ch < b.data.length) :
    (mapVals f b).px r q ch = f (b.px r q ch) := by
  show (mapVals f b).data.getD ((r * b.w + q) * b.c + ch) 0 = f (b.px r q ch)
  rw [mapVals]
  show (b.data.map f).getD ((r * b.w + q) * b.c + ch) 0 = f (b.px r q ch)
  rw [List.getD_eq_getElem?_getD, List.getElem?_map,
    List.getElem?_eq_getElem hlen]
  simp only [Option.map_some', Option.getD_some]
  show f b.data[(r * b.w + q) * b.c + ch] = f (b.px r q ch)
  congr 1
  rw [Buf.px, List.getD_eq_getElem?_getD, List.getElem?_eq_getElem hlen]
  rfl

/-! ### List minimum / maximum lemmas -/

theorem qmax_eq (a b : ℚ) : qmax a b = max a b := (max_def a b).symm

theorem qmin_eq (a b : ℚ) : qmin a b = min a b := (min_def a b).symm

theorem qmax_fun_eq : qmax = (max : ℚ → ℚ → ℚ) :=
  funext fun a => funext fun b => qmax_eq a b

theorem qmin_fun_eq : qmin = (min : ℚ → ℚ → ℚ) :=
  funext fun a => funext fun b => qmin_eq a b

theorem imax_eq (a b : ℤ) : imax a b = max a b := (max_def a b).symm

theorem imin_eq (a b : ℤ) : imin a b = min a b := (min_def a b).symm

/-- sat8 written with the library's min and max. -/
theorem sat8_eq_minmax (q : ℚ) : sat8 q = ((min 255 (max 0 (rne q)) : ℤ) : ℚ) := by
  rw [sat8, imin_eq, imax_eq]

theorem foldl_max_init_le (xs : List ℚ) : ∀ a : ℚ, a ≤ xs.foldl max a := by
  induction xs with
  | nil => intro a; exact le_refl a
  | cons y ys ih =>
    intro a
    calc a ≤ max a y := le_max_left a y
      _ ≤ (y :: ys).foldl max a := ih (max a y)

theorem mem_le_foldl_max (xs : List ℚ) : ∀ (a v : ℚ), v ∈ xs → v ≤ xs.foldl max a := by
  induction xs with
  | nil => intro a v hv; cases hv
  | cons y ys ih =>
    intro a v hv
    rcases List.mem_cons.mp hv with h | h
    · subst h
      calc v ≤ max a v := le_max_right a v
        _ ≤ ys.foldl max (max a v) := foldl_max_init_le ys (max a v)
    · exact ih (max a y) v h

theorem foldl_max_mem (xs : List ℚ) : ∀ a : ℚ, xs.foldl max a = a ∨ xs.foldl max a ∈ xs := by
  induction xs with
  | nil => intro a; exact Or.inl rfl
  | cons y ys ih =>
    intro a
    rcases ih (max a y) with h | h
    · rcases max_choice a y with hm | hm
      · exact Or.inl (by rw [List.foldl_cons, h, hm])
      · exact Or.inr (by rw [List.foldl_cons, h, hm]; exact List.mem_cons_self y ys)
    · exact Or.inr (List.mem_cons_of_mem y h)

theorem le_listMax (l : List ℚ) (v : ℚ) (hv : v ∈ l) : v ≤ listMax l := by
  cases l with
  | nil => cases hv
  | cons x xs =>
    show v ≤ xs.foldl qmax x
    rw [qmax_fun_eq]
    rcases List.mem_cons.mp hv with h | h
    · subst h; exact foldl_max_init_le xs v
    · exact mem_le_foldl_max xs x v h

theorem listMax_mem (l : List ℚ) (hl : l ≠ []) : listMax l ∈ l := by
  cases l with
  | nil => exact absurd rfl hl
  | cons x xs =>
    have hx : listMax (x :: xs) = xs.foldl max x := by
      show xs.foldl qmax x = xs.foldl max x
      rw [qmax_fun_eq]
    rw [hx]
    rcases foldl_max_mem xs x with h | h
    · rw [h]; exact List.mem_cons_self x xs
    · exact List.mem_cons_of_mem x h

theorem foldl_min_le_init (xs : List ℚ) : ∀ a : ℚ, xs.foldl min a ≤ a := by
  induction xs with
  | nil => intro a; exact le_refl a
  | cons y ys ih =>
    intro a
    calc (y :: ys).foldl min a = ys.foldl min (min a y) := rfl
      _ ≤ min a y := ih (min a y)
      _ ≤ a := min_le_left a y

theorem foldl_min_le_mem (xs : List ℚ) : ∀ (a v : ℚ), v ∈ xs → xs.foldl min a ≤ v := by
  induction xs with
  | nil => intro a v hv; cases hv
  | cons y ys ih =>
    intro a v hv
    rcases List.mem_cons.mp hv with h | h
    · subst h
      calc ys.foldl min (min a v) ≤ min a v := foldl_min_le_init ys (min a v)
        _ ≤ v := min_le_right a v
    · exact ih (min a y) v h

theorem foldl_min_mem (xs : List ℚ) : ∀ a : ℚ, xs.foldl min a = a ∨ xs.foldl min a ∈ xs := by
  induction xs with
  | nil => intro a; exact Or.inl rfl
  | cons y ys ih =>
    intro a
    rcases ih (min a y) with h | h
    · rcases min_choice a y with hm | hm
      · exact Or.inl (by rw [List.foldl_cons, h, hm])
      · exact Or.inr (by rw [List.foldl_cons, h, hm]; exact List.mem_cons_self y ys)
    · exact Or.inr (List.mem_cons_of_mem y h)

theorem listMin_le (l : List ℚ) (v : ℚ) (hv : v ∈ l) : listMin l ≤ v := by
  cases l with
  | nil => cases hv
  | cons x xs =>
    show xs.foldl qmin x ≤ v
    rw [qmin_fun_eq]
    rcases List.mem_cons.mp hv with h | h
    · subst h; exact foldl_min_le_init xs v
    · exact foldl_min_le_mem xs x v h

theorem listMin_mem (l : List ℚ) (hl : l ≠ []) : listMin l ∈ l := by
  cases l with
  | nil => exact absurd rfl hl
  | cons x xs =>
    have hx : listMin (x :: xs) = xs.foldl min x := by
      show xs.foldl qmin x = xs.foldl min x
      rw [qmin_fun_eq]
    rw [hx]
    rcases foldl_min_mem xs x with h | h
    · rw [h]; exact List.mem_cons_self x xs
    · exact List.mem_cons_of_mem x h

/-! ### sat8 lemmas -/

theorem sat8_zero : sat8 0 = 0 := by decide

theorem sat8_255 : sat8 255 = 255 := by decide

theorem rne_le (q : ℚ) : (⌊q⌋ : ℤ) ≤ rne q := by
  unfold rne
  split
  · exact le_refl _
  · split
    · omega
    · split
      · exact le_refl _
      · omega

theorem sat8_nonneg (q : ℚ) : 0 ≤ sat8 q := by
  rw [sat8_eq_minmax]
  have h : (0 : ℤ) ≤ min 255 (max 0 (rne q)) :=
    le_min (by norm_num) (le_max_left 0 (rne q))
  exact_mod_cast h

theorem sat8_le_255 (q : ℚ) : sat8 q ≤ 255 := by
  rw [sat8_eq_minmax]
  have h : min 255 (max 0 (rne q)) ≤ (255 : ℤ) := min_le_left _ _
  exact_mod_cast h

theorem sat8_of_ge_255 (q : ℚ) (hq : 255 ≤ q) : sat8 q = 255 := by
  rw [sat8_eq_minmax]
  have hfl : (255 : ℤ) ≤ ⌊q⌋ := by
    rw [Int.le_floor]
    exact_mod_cast hq
  have hr : (255 : ℤ) ≤ rne q := le_trans hfl (rne_le q)
  have hmax : max 0 (rne q) = rne q := max_eq_right (le_trans (by norm_num) hr)
  rw [hmax, min_eq_left hr]
  norm_num

/-- On an integer value already in 0..255, the saturating 8-bit store is
the identity. -/
theorem sat8_int_id (z : ℤ) (h0 : 0 ≤ z) (h255 : z ≤ 255) : sat8 (z : ℚ) = (z : ℚ) := by
  have hrne : rne (z : ℚ) = z := by
    unfold rne
    rw [Int.floor_intCast]
    simp
  rw [sat8_eq_minmax, hrne, max_eq_right h0, min_eq_right h255]

/-! ### argmaxFirst lemmas (np.argmax returns the first maximum) -/

theorem argmaxFirst_zero (f : ℕ → ℕ) : argmaxFirst f 0 = 0 := rfl

theorem argmaxFirst_succ (f : ℕ → ℕ) (n : ℕ) :
    argmaxFirst f (n + 1) =
      if f (argmaxFirst f n) < f n then n else argmaxFirst f n := by
  unfold argmaxFirst
  rw [List.range_succ, List.foldl_append]
  rfl

theorem argmaxFirst_lt (f : ℕ → ℕ) (n : ℕ) (hn : 0 < n) : argmaxFirst f n < n := by
  induction n with
  | zero => omega
  | succ m ih =>
    rw [argmaxFirst_succ]
    split
    · omega
    · rcases Nat.eq_zero_or_pos m with h0 | hpos
      · subst h0; rw [argmaxFirst_zero]; omega
      · exact Nat.lt_succ_of_lt (ih hpos)

theorem argmaxFirst_isMax (f : ℕ → ℕ) (n : ℕ) :
    ∀ i, i < n → f i ≤ f (argmaxFirst f n) := by
  induction n with
  | zero => intro i hi; omega
  | succ m ih =>
    intro i hi
    rw [argmaxFirst_succ]
    split
    · rename_i hlt
      rcases Nat.lt_succ_iff_lt_or_eq.mp hi with h | h
      · exact le_trans (ih i h) (le_of_lt hlt)
      · subst h; exact le_refl _
    · rename_i hnlt
      rcases Nat.lt_succ_iff_lt_or_eq.mp hi with h | h
      · exact ih i h
      · subst h; omega

/-! ### Stage shape and inversion lemmas -/

theorem gradientStage_ok (n g : Buf) (hg : gradientStage n = .ok g) :
    g.h = n.h ∧ g.w = n.w ∧ g.c = n.c := by
  unfold gradientStage gradInvert at hg
  split at hg
  · cases hg
  · injection hg with hg
    subst hg
    exact ⟨rfl, rfl, rfl⟩

theorem preThreshold_ok (b b6 : Buf) (h : preThreshold b = .ok b6) :
    b6.h = b.h ∧ b6.w = b.w ∧ b6.c = b.c := by
  unfold preThreshold at h
  split at h
  · cases h
  · rename_i hne
    dsimp only at h
    rcases hg : gradientStage (normalizeMinMax b) with e | g2
    · rw [hg] at h; cases h
    · rw [hg] at h
      injection h with h
      subst h
      exact ⟨rfl, rfl, rfl⟩

theorem pipelineStages_pre_ok (b b6 : Buf) (h : preThreshold b = .ok b6) :
    pipelineStages b =
      match adaptiveThresholdMean b6 149 21 with
      | .error e => .error e
      | .ok bin => .ok (normalizeMinMax bin) := by
  unfold pipelineStages
  rw [h]

theorem pipelineStages_pre_err (b : Buf) (e : CVErr) (h : preThreshold b = .error e) :
    pipelineStages b = .error e := by
  unfold pipelineStages
  rw [h]

/-- Inverting a successful adaptive threshold: the source had one channel,
the block size was legal, and the output is the thresholded comparison
image. -/
theorem adaptiveThresholdMean_ok (b out : Buf) (block : ℕ) (offC : ℤ)
    (h : adaptiveThresholdMean b block offC = .ok out) :
    b.c = 1 ∧ block % 2 = 1 ∧ 1 < block ∧
      out = mkBuf b.h b.w 1 (fun r q _ =>
        if (-(offC : ℚ)) < b.px r q 0 - boxMeanRep b block r q then 255 else 0) := by
  unfold adaptiveThresholdMean at h
  split at h
  · cases h
  · split at h
    · cases h
    · rename_i hc hb
      injection h with h
      refine ⟨by omega, by omega, by omega, h.symm⟩

/-- Every sample of the adaptive threshold output is 0 or 255. -/
theorem adaptiveThresholdMean_binary (b out : Buf) (block : ℕ) (offC : ℤ)
    (h : adaptiveThresholdMean b block offC = .ok out) :
    ∀ v ∈ out.data, v = 0 ∨ v = 255 := by
  obtain ⟨-, -, -, hout⟩ := adaptiveThresholdMean_ok b out block offC h
  subst hout
  intro v hv
  simp only [mkBuf, List.mem_map] at hv
  obtain ⟨n, -, hn⟩ := hv
  by_cases hc : (-(offC : ℚ)) < b.px (n / (b.w * 1)) (n / 1 % b.w) 0
      - boxMeanRep b block (n / (b.w * 1)) (n / 1 % b.w)
  · right; rw [← hn]; exact if_pos hc
  · left; rw [← hn]; exact if_neg hc

/-- A min-max normalize of a two-level 0/255 buffer keeps every sample
in the set 0, 255 (the stretch is the identity there when both levels
appear, and the degenerate branch zero-fills). -/
theorem normalizeMinMax_binary (b : Buf) (hb : ∀ v ∈ b.data, v = 0 ∨ v = 255) :
    ∀ v ∈ (normalizeMinMax b).data, v = 0 ∨ v = 255 := by
  intro v hv
  simp only [normalizeMinMax, List.mem_map] at hv
  obtain ⟨x, hx, hxv⟩ := hv
  by_cases heps : epsF64 < listMax b.data - listMin b.data
  · have hne : b.data ≠ [] := by
      intro h0
      rw [h0] at heps
      simp [listMax, listMin, epsF64] at heps
      linarith
    have hmaxmem := listMax_mem b.data hne
    have hminmem := listMin_mem b.data hne
    have hminle : listMin b.data ≤ listMax b.data := listMin_le _ _ hmaxmem
    have hlt : listMin b.data < listMax b.data := by
      have : (0:ℚ) < epsF64 := by norm_num [epsF64]
      linarith
    have hmin0 : listMin b.data = 0 := by
      rcases hb _ hminmem with h | h
      · exact h
      · rcases hb _ hmaxmem with h2 | h2 <;> rw [h, h2] at hlt <;> linarith
    have hmax255 : listMax b.data = 255 := by
      rcases hb _ hmaxmem with h | h
      · rw [hmin0, h] at hlt; linarith
      · exact h
    rw [if_pos heps] at hxv
    rw [hmin0, hmax255] at hxv
    have : x * (255 / (255 - 0)) + (0 - 0 * (255 / (255 - 0))) = x := by norm_num
    rw [this] at hxv
    rcases hb x hx with h | h
    · left; rw [← hxv, h, sat8_zero]
    · right; rw [← hxv, h, sat8_255]
  · rw [if_neg heps] at hxv
    have : x * 0 + (0 - listMin b.data * 0) = 0 := by ring
    rw [this] at hxv
    left
    rw [← hxv, sat8_zero]

/-- Two generated buffers with pointwise-equal generators are equal. -/
theorem mkBuf_congr (h w c : ℕ) (f g : ℕ → ℕ → ℕ → ℚ)
    (hfg : ∀ r q ch, f r q ch = g r q ch) : mkBuf h w c f = mkBuf h w c g := by
  unfold mkBuf
  congr 1
  apply List.map_congr_left
  intro n _
  exact hfg _ _ _

/-- On an all-zero single-channel buffer every window mean is 0, so the
adaptive threshold (local mean minus 21) fires everywhere: all 255. -/
theorem threshold_of_zero (b : Buf) (hc : b.c = 1)
    (hz : ∀ i, b.data.getD i 0 = 0) :
    adaptiveThresholdMean b 149 21 = .ok (mkBuf b.h b.w 1 (fun _ _ _ => (255 : ℚ))) := by
  have hpx : ∀ r q ch, b.px r q ch = 0 := fun r q ch => hz _
  have hmean : ∀ r q, boxMeanRep b 149 r q = 0 := by
    intro r q
    unfold boxMeanRep
    have hsum : (∑ i in Finset.range 149, ∑ j in Finset.range 149,
        b.px (clampIdx b.h ((r : ℤ) + i - (149 / 2 : ℕ)))
             (clampIdx b.w ((q : ℤ) + j - (149 / 2 : ℕ))) 0) = 0 := by
      rw [Finset.sum_congr rfl (fun i _ => Finset.sum_congr rfl (fun j _ => hpx _ _ _))]
      simp
    rw [hsum, zero_div, sat8_zero]
  unfold adaptiveThresholdMean
  rw [if_neg (by omega), if_neg (by norm_num)]
  congr 1
  apply mkBuf_congr
  intro r q ch
  rw [hpx, hmean]
  norm_num

/-- The whole pipeline on the example image ex13 returns the mask exOut:
its gradient magnitude peaks at the middle column, the histogram cap
lands in bin 0 and crushes the blend to zero, the adaptive threshold
turns the zero image into all 255, and the final re-normalize of the
constant buffer zero-fills. -/
theorem pipeline_ex13 : pipelineStages ex13 = Except.ok exOut := by
  have hpre : preThreshold ex13 = .ok ⟨1, 3, 1, [0, 0, 0]⟩ := by decide
  rw [pipelineStages_pre_ok ex13 _ hpre]
  have hz : ∀ i, (Buf.mk 1 3 1 [0, 0, 0]).data.getD i 0 = 0 := by
    intro i
    match i with
    | 0 => rfl
    | 1 => rfl
    | 2 => rfl
    | n + 3 => rfl
  rw [threshold_of_zero _ rfl hz]
  show Except.ok (normalizeMinMax (mkBuf 1 3 1 fun _ _ _ => (255 : ℚ))) = Except.ok exOut
  have hb : (mkBuf 1 3 1 fun _ _ _ => (255 : ℚ)) = ⟨1, 3, 1, [255, 255, 255]⟩ := by decide
  rw [hb]
  decide

/-- pretty_oof_result on the array input ex13. -/
theorem pretty_ex13 : pretty_oof_result (PyInput.arr ex13) = Except.ok exOut :=
  pipeline_ex13

theorem argmaxFirst_first (f : ℕ → ℕ) (n : ℕ) :
    ∀ j, j < argmaxFirst f n → f j < f (argmaxFirst f n) := by
  induction n with
  | zero => intro j hj; rw [argmaxFirst_zero] at hj; omega
  | succ m ih =>
    intro j hj
    rw [argmaxFirst_succ] at hj ⊢
    split at hj
    · rename_i hlt
      rw [if_pos hlt]
      rcases Nat.eq_zero_or_pos m with h0 | hpos
      · omega
      · have hjm : j < m := hj
        exact lt_of_le_of_lt (argmaxFirst_isMax f m j hjm) hlt
    · rename_i hnlt
      rw [if_neg hnlt]
      exact ih j hj

/-- abs_grad_x of line 39: the saturated absolute horizontal response. -/
def absGradX (b : Buf) : Buf := mapVals cvAbs8 (sobel3 true b)

/-- abs_grad_y of line 40: the saturated absolute vertical response. -/
def absGradY (b : Buf) : Buf := mapVals cvAbs8 (sobel3 false b)

/-- gradient_magnitude of line 41: the equal-weighted average of the two
saturated responses, stored as uint8. -/
def gradMag (b : Buf) : Buf := addWeightedHalf (absGradX b) (absGradY b)

theorem gradientStage_eq (b : Buf) : gradientStage b = gradInvert (gradMag b) := rfl

/-! ### Claim theorems -/

/-- C1: for every input on which the pipeline returns a mask, the mask
has the height and width of the input and a single channel, and the
buffer fed to the threshold stage already had the input's shape: no
stage crops, pads or resamples the spatial dimensions. -/
theorem spec_shape_preserved (b out : Buf) (hok : pipelineStages b = Except.ok out) :
    out.h = b.h ∧ out.w = b.w ∧ out.c = 1 ∧
      (∀ b6, preThreshold b = Except.ok b6 → b6.h = b.h ∧ b6.w = b.w ∧ b6.c = b.c) := by
  cases hpre : preThreshold b with
  | error e =>
    rw [pipelineStages_pre_err b e hpre] at hok
    cases hok
  | ok b6 =>
    rw [pipelineStages_pre_ok b b6 hpre] at hok
    cases hth : adaptiveThresholdMean b6 149 21 with
    | error e => rw [hth] at hok; cases hok
    | ok bin =>
      rw [hth] at hok
      injection hok with hok
      obtain ⟨hc1, -, -, hbin⟩ := adaptiveThresholdMean_ok _ _ _ _ hth
      obtain ⟨hh, hw, hcc⟩ := preThreshold_ok b b6 hpre
      subst hbin
      refine ⟨?_, ?_, ?_, ?_⟩
      · rw [← hok]; exact hh
      · rw [← hok]; exact hw
      · rw [← hok]; rfl
      · intro b6x hb6x
        injection hb6x with hb6x
        subst hb6x
        exact ⟨hh, hw, hcc⟩

/-- C1 witness: the pipeline on the concrete image ex13 gives a mask of
the same 1 x 3 shape with one channel. -/
theorem spec_shape_preserved_witness :
    exOut.h = ex13.h ∧ exOut.w = ex13.w ∧ exOut.c = 1 ∧
      (∀ b6, preThreshold ex13 = Except.ok b6 →
        b6.h = ex13.h ∧ b6.w = ex13.w ∧ b6.c = ex13.c) :=
  spec_shape_preserved ex13 exOut pipeline_ex13

/-- C5: every sample of a returned mask is 0 or 255: the threshold output
is two-level and the final min-max re-normalize keeps the two classes at
exactly 0 and 255 (and zero-fills when only one class appears). -/
theorem spec_output_binary (b out : Buf) (hok : pipelineStages b = Except.ok out) :
    ∀ v ∈ out.data, v = 0 ∨ v = 255 := by
  cases hpre : preThreshold b with
  | error e =>
    rw [pipelineStages_pre_err b e hpre] at hok
    cases hok
  | ok b6 =>
    rw [pipelineStages_pre_ok b b6 hpre] at hok
    cases hth : adaptiveThresholdMean b6 149 21 with
    | error e => rw [hth] at hok; cases hok
    | ok bin =>
      rw [hth] at hok
      injection hok with hok
      rw [← hok]
      exact normalizeMinMax_binary bin (adaptiveThresholdMean_binary b6 bin 149 21 hth)

/-- C5 witness: the first sample of the mask computed on ex13 is 0 or
255. -/
theorem spec_output_binary_witness : (0 : ℚ) = 0 ∨ (0 : ℚ) = 255 :=
  spec_output_binary ex13 exOut pipeline_ex13 0 (by decide)

/-- A sample lies in histogram bin i exactly when it lies in the
half-open interval of width 16 starting at 16 i. -/
theorem histBin_iff (v : ℚ) (i : ℕ) :
    (⌊v / 16⌋ = (i : ℤ)) ↔ (16 * (i : ℚ) ≤ v ∧ v < 16 * ((i : ℚ) + 1)) := by
  rw [Int.floor_eq_iff]
  constructor
  · rintro ⟨h1, h2⟩
    push_cast at h1 h2
    constructor
    · have := (le_div_iff₀ (by norm_num : (0:ℚ) < 16)).mp h1
      linarith
    · have := (div_lt_iff₀ (by norm_num : (0:ℚ) < 16)).mp h2
      linarith
  · rintro ⟨h1, h2⟩
    constructor
    · push_cast
      rw [le_div_iff₀ (by norm_num : (0:ℚ) < 16)]
      linarith
    · push_cast
      rw [div_lt_iff₀ (by norm_num : (0:ℚ) < 16)]
      linarith

/-- C2: the histogram-mode level cap.  Bin membership is by floor
division by 16 and agrees with the interval reading, the chosen bin is
maximal, any strictly earlier bin has a strictly smaller count (ties
break to the lowest index), and the output replaces every sample v by
min v (16 m). -/
theorem spec_histmode_cap (b : Buf) :
    modeBin b < 16 ∧
    (∀ i, i < 16 → histCounts b i ≤ histCounts b (modeBin b)) ∧
    (∀ i, i < modeBin b → histCounts b i < histCounts b (modeBin b)) ∧
    (∀ i : ℕ, histCounts b i =
      b.data.countP (fun v => decide (16 * (i : ℚ) ≤ v ∧ v < 16 * ((i : ℚ) + 1)))) ∧
    (histCap b).data = b.data.map (fun v => min v (16 * (modeBin b : ℚ))) := by
  refine ⟨argmaxFirst_lt _ 16 (by norm_num), ?_, ?_, ?_, ?_⟩
  · intro i hi
    exact argmaxFirst_isMax (histCounts b) 16 i hi
  · intro i hi
    exact argmaxFirst_first (histCounts b) 16 i hi
  · intro i
    unfold histCounts
    apply List.countP_congr
    intro v _
    rw [decide_eq_true_eq, decide_eq_true_eq]
    exact histBin_iff v i
  · show b.data.map (fun v => qmin v (16 * (modeBin b : ℚ))) = _
    apply List.map_congr_left
    intro v _
    exact qmin_eq v _

/-- C3: on a single-channel image the binarization stage succeeds; it is
local-mean adaptive thresholding with a square 149 x 149 neighborhood
(replicate-padded) and offset 21 subtracted from the local mean before
the comparison; the output is two-level and has the input's spatial
size. -/
theorem spec_adaptive_threshold (b : Buf) (hc : b.c = 1) :
    ∃ out, adaptiveThresholdMean b 149 21 = Except.ok out ∧
      out.h = b.h ∧ out.w = b.w ∧ out.c = 1 ∧
      (∀ v ∈ out.data, v = 0 ∨ v = 255) ∧
      (∀ r q, r < b.h → q < b.w →
        out.px r q 0 =
          if boxMeanRep b 149 r q - 21 < b.px r q 0 then 255 else 0) := by
  have heq : adaptiveThresholdMean b 149 21 =
      Except.ok (mkBuf b.h b.w 1 (fun r q _ =>
        if (-((21 : ℤ) : ℚ)) < b.px r q 0 - boxMeanRep b 149 r q then 255 else 0)) := by
    unfold adaptiveThresholdMean
    rw [if_neg (by omega), if_neg (by norm_num)]
  refine ⟨_, heq, rfl, rfl, rfl, ?_, ?_⟩
  · exact adaptiveThresholdMean_binary b _ 149 21 heq
  · intro r q hr hq
    rw [px_mkBuf b.h b.w 1 _ r q 0 hr hq (by norm_num)]
    apply if_congr _ rfl rfl
    constructor
    · intro h
      push_cast at h
      linarith
    · intro h
      push_cast
      linarith

/-- C3 witness: the stage applies to a concrete 1 x 1 single-channel
image. -/
theorem spec_adaptive_threshold_witness :
    ∃ out, adaptiveThresholdMean ⟨1, 1, 1, [5]⟩ 149 21 = Except.ok out ∧
      out.h = (Buf.mk 1 1 1 [5]).h ∧ out.w = (Buf.mk 1 1 1 [5]).w ∧ out.c = 1 ∧
      (∀ v ∈ out.data, v = 0 ∨ v = 255) ∧
      (∀ r q, r < (Buf.mk 1 1 1 [5]).h → q < (Buf.mk 1 1 1 [5]).w →
        out.px r q 0 =
          if boxMeanRep ⟨1, 1, 1, [5]⟩ 149 r q - 21 < (Buf.mk 1 1 1 [5]).px r q 0
          then 255 else 0) :=
  spec_adaptive_threshold ⟨1, 1, 1, [5]⟩ rfl

/-- C4: the degenerate all-constant input.  The entry normalize does
zero-fill without error, the gradient magnitude is identically zero, and
the source then divides by gradient_magnitude.max() = 0 with no guard:
numpy computes 0/0, the buffer is NaN from line 42 on, and no defined
all-255 gradient image exists.  The claim's guarded behavior is what the
spec demands; the code omits the guard. -/
theorem const_input_division_unguarded :
    normalizeMinMax cimg = ⟨2, 2, 1, [0, 0, 0, 0]⟩ ∧
    listMax (gradMag (normalizeMinMax cimg)).data = 0 ∧
    gradientStage (normalizeMinMax cimg) = Except.error CVErr.nanDivision ∧
    pipelineStages cimg = Except.error CVErr.nanDivision := by
  refine ⟨by decide, by decide, by decide, by decide⟩

/-- px of an elementwise map over a well-formed buffer. -/
theorem px_mapVals_wf (f : ℚ → ℚ) (X : Buf) (hX : X.data.length = X.h * X.w * X.c)
    (r q ch : ℕ) (hr : r < X.h) (hq : q < X.w) (hch : ch < X.c) :
    (mapVals f X).px r q ch = f (X.px r q ch) :=
  px_mapVals f X r q ch (hX ▸ flatIdx_lt X.h X.w X.c r q ch hr hq hch)

/-- C6: the gradient stage.  The horizontal and vertical responses are
the 3 x 3 Sobel correlations with reflected borders; each is stored as
its absolute value with saturating (not wrapping) unsigned 8-bit
semantics; the two are combined as the equal-weighted average
0.5 x + 0.5 y (stored as uint8); and when the magnitude maximum is
nonzero the stage returns (1 - m / max) * 255 per sample. -/
theorem spec_gradient_stage (b : Buf) (r q ch : ℕ)
    (hr : r < b.h) (hq : q < b.w) (hch : ch < b.c) :
    (sobel3 true b).px r q ch =
      (∑ i in Finset.range 3, ∑ j in Finset.range 3,
        ((sobelSmooth i * sobelDeriv j : ℤ) : ℚ)
          * b.px (ref101 b.h ((r : ℤ) + i - 1)) (ref101 b.w ((q : ℤ) + j - 1)) ch) ∧
    (sobel3 false b).px r q ch =
      (∑ i in Finset.range 3, ∑ j in Finset.range 3,
        ((sobelDeriv i * sobelSmooth j : ℤ) : ℚ)
          * b.px (ref101 b.h ((r : ℤ) + i - 1)) (ref101 b.w ((q : ℤ) + j - 1)) ch) ∧
    (absGradX b).px r q ch = sat8 |(sobel3 true b).px r q ch| ∧
    (absGradY b).px r q ch = sat8 |(sobel3 false b).px r q ch| ∧
    (gradMag b).px r q ch =
      sat8 ((1:ℚ)/2 * (absGradX b).px r q ch + (1:ℚ)/2 * (absGradY b).px r q ch) ∧
    (0 ≤ (absGradX b).px r q ch ∧ (absGradX b).px r q ch ≤ 255) ∧
    (255 ≤ |(sobel3 true b).px r q ch| → (absGradX b).px r q ch = 255) ∧
    (∀ g2, gradientStage b = Except.ok g2 →
      listMax (gradMag b).data ≠ 0 ∧
      g2.px r q ch =
        (1 - (gradMag b).px r q ch / listMax (gradMag b).data) * 255) := by
  have hsx : (sobel3 true b).px r q ch =
      (∑ i in Finset.range 3, ∑ j in Finset.range 3,
        ((sobelSmooth i * sobelDeriv j : ℤ) : ℚ)
          * b.px (ref101 b.h ((r : ℤ) + i - 1)) (ref101 b.w ((q : ℤ) + j - 1)) ch) :=
    px_mkBuf b.h b.w b.c _ r q ch hr hq hch
  have hsy : (sobel3 false b).px r q ch =
      (∑ i in Finset.range 3, ∑ j in Finset.range 3,
        ((sobelDeriv i * sobelSmooth j : ℤ) : ℚ)
          * b.px (ref101 b.h ((r : ℤ) + i - 1)) (ref101 b.w ((q : ℤ) + j - 1)) ch) :=
    px_mkBuf b.h b.w b.c _ r q ch hr hq hch
  have hax : (absGradX b).px r q ch = sat8 |(sobel3 true b).px r q ch| :=
    px_mapVals_wf cvAbs8 (sobel3 true b) (mkBuf_length _ _ _ _) r q ch hr hq hch
  have hay : (absGradY b).px r q ch = sat8 |(sobel3 false b).px r q ch| :=
    px_mapVals_wf cvAbs8 (sobel3 false b) (mkBuf_length _ _ _ _) r q ch hr hq hch
  have hmag : (gradMag b).px r q ch =
      sat8 ((1:ℚ)/2 * (absGradX b).px r q ch + (1:ℚ)/2 * (absGradY b).px r q ch) :=
    px_mkBuf (absGradX b).h (absGradX b).w (absGradX b).c _ r q ch hr hq hch
  refine ⟨hsx, hsy, hax, hay, hmag, ⟨?_, ?_⟩, ?_, ?_⟩
  · rw [hax]; exact sat8_nonneg _
  · rw [hax]; exact sat8_le_255 _
  · intro habs
    rw [hax]
    exact sat8_of_ge_255 _ habs
  · intro g2 hg2
    rw [gradientStage_eq] at hg2
    rw [gradInvert] at hg2
    split at hg2
    · cases hg2
    · rename_i hne
      injection hg2 with hg2
      subst hg2
      refine ⟨hne, ?_⟩
      exact px_mapVals_wf _ (gradMag b) (mkBuf_length _ _ _ _) r q ch hr hq hch

/-- C6 witness: the gradient stage characterization at the middle pixel
of the concrete image ex13. -/
theorem spec_gradient_stage_witness :
    (sobel3 true ex13).px 0 1 0 =
      (∑ i in Finset.range 3, ∑ j in Finset.range 3,
        ((sobelSmooth i * sobelDeriv j : ℤ) : ℚ)
          * ex13.px (ref101 ex13.h ((0 : ℤ) + i - 1)) (ref101 ex13.w ((1 : ℤ) + j - 1)) 0) ∧
    (sobel3 false ex13).px 0 1 0 =
      (∑ i in Finset.range 3, ∑ j in Finset.range 3,
        ((sobelDeriv i * sobelSmooth j : ℤ) : ℚ)
          * ex13.px (ref101 ex13.h ((0 : ℤ) + i - 1)) (ref101 ex13.w ((1 : ℤ) + j - 1)) 0) ∧
    (absGradX ex13).px 0 1 0 = sat8 |(sobel3 true ex13).px 0 1 0| ∧
    (absGradY ex13).px 0 1 0 = sat8 |(sobel3 false ex13).px 0 1 0| ∧
    (gradMag ex13).px 0 1 0 =
      sat8 ((1:ℚ)/2 * (absGradX ex13).px 0 1 0 + (1:ℚ)/2 * (absGradY ex13).px 0 1 0) ∧
    (0 ≤ (absGradX ex13).px 0 1 0 ∧ (absGradX ex13).px 0 1 0 ≤ 255) ∧
    (255 ≤ |(sobel3 true ex13).px 0 1 0| → (absGradX ex13).px 0 1 0 = 255) ∧
    (∀ g2, gradientStage ex13 = Except.ok g2 →
      listMax (gradMag ex13).data ≠ 0 ∧
      g2.px 0 1 0 =
        (1 - (gradMag ex13).px 0 1 0 / listMax (gradMag ex13).data) * 255) :=
  spec_gradient_stage ex13 0 1 0 (by decide) (by decide) (by decide)

/-- C7: the blend stage computes, per sample,
0.21 x gradient + 0.79 x normalized image: a linear interpolation with
fixed weight ALPHA = 21/100 on the gradient term and 1 - ALPHA = 79/100
on the image term. -/
theorem spec_blend_alpha (g n : Buf) (r q ch : ℕ)
    (hr : r < n.h) (hq : q < n.w) (hch : ch < n.c) :
    (blendStage g n).px r q ch =
      (21:ℚ)/100 * g.px r q ch + (79:ℚ)/100 * n.px r q ch ∧
    ALPHA = 21/100 ∧ 1 - ALPHA = 79/100 := by
  refine ⟨?_, rfl, by norm_num [ALPHA]⟩
  have h := px_mkBuf n.h n.w n.c
    (fun r q ch => ALPHA * g.px r q ch + (1 - ALPHA) * n.px r q ch) r q ch hr hq hch
  show (blendStage g n).px r q ch = _
  rw [blendStage, h]
  norm_num [ALPHA]

/-- C7 witness: the blend formula at the single pixel of two concrete
1 x 1 buffers. -/
theorem spec_blend_alpha_witness :
    (blendStage ⟨1, 1, 1, [10]⟩ ⟨1, 1, 1, [20]⟩).px 0 0 0 =
      (21:ℚ)/100 * (Buf.mk 1 1 1 [10]).px 0 0 0 + (79:ℚ)/100 * (Buf.mk 1 1 1 [20]).px 0 0 0 ∧
    ALPHA = 21/100 ∧ 1 - ALPHA = 79/100 :=
  spec_blend_alpha ⟨1, 1, 1, [10]⟩ ⟨1, 1, 1, [20]⟩ 0 0 0 (by decide) (by decide) (by decide)

/-- C8: when save_path is supplied the mask is written to
save_path/pretty_oof_preprocess.png, overwriting whatever the file held
(the hypothesis places no condition on fs); when the target is not
writable nothing is written, and in both cases the computed mask is
still returned: the save failure never masks the computation. -/
theorem spec_save_nonfatal (inp : PyInput) (d : String) (fs : FSys) (wr : Bool)
    (mask : Buf) (hok : pretty_oof_result inp = Except.ok mask) :
    (pretty_oof_run inp (some d) fs wr).1 = Except.ok mask ∧
    (wr = true →
      (pretty_oof_run inp (some d) fs wr).2 (saveFile d) = some mask.data) ∧
    (wr = false → (pretty_oof_run inp (some d) fs wr).2 = fs) := by
  have hrun : pretty_oof_run inp (some d) fs wr =
      (Except.ok mask,
        if wr then (fun p => if p = saveFile d then some mask.data else fs p) else fs) := by
    unfold pretty_oof_run
    rw [hok]
  rw [hrun]
  cases wr with
  | true =>
    refine ⟨rfl, ?_, ?_⟩
    · intro _
      show (if (saveFile d) = saveFile d then some mask.data else fs (saveFile d))
        = some mask.data
      rw [if_pos rfl]
    · intro h
      cases h
  | false =>
    refine ⟨rfl, ?_, ?_⟩
    · intro h
      cases h
    · intro _
      rfl

/-- C8 witness: running on ex13 with a save directory and a writable
target stores the mask at the expected path and still returns it. -/
theorem spec_save_nonfatal_witness :
    (pretty_oof_run (PyInput.arr ex13) (some "out") (fun _ => none) true).1 = Except.ok exOut ∧
    (true = true →
      (pretty_oof_run (PyInput.arr ex13) (some "out") (fun _ => none) true).2 (saveFile "out")
        = some exOut.data) ∧
    (true = false →
      (pretty_oof_run (PyInput.arr ex13) (some "out") (fun _ => none) true).2 = fun _ => none) :=
  spec_save_nonfatal (PyInput.arr ex13) "out" (fun _ => none) true exOut pretty_ex13

/-- C9 counterexample: a wrong-rank (three-channel) input is not
rejected immediately.  All stages before the threshold compute a result
(preThreshold succeeds), and the error the caller sees is raised by the
adaptive-threshold stage, not by the entry normalization. -/
theorem wrongrank_not_rejected_cex :
    ex3ch.c = 3 ∧
    preThreshold ex3ch = Except.ok ⟨1, 3, 3, List.replicate 9 0⟩ ∧
    pretty_oof_result (PyInput.arr ex3ch) = Except.error CVErr.badSrcType ∧
    CVErr.badSrcType ≠ CVErr.emptyInput ∧ CVErr.badSrcType ≠ CVErr.missingInput := by
  refine ⟨rfl, by decide, by decide, by decide, by decide⟩

/-- C9 (amended): a missing or empty input buffer is rejected by the
very first library call, cv2.normalize at line 35, before any pipeline
stage computes; the error reaches the caller directly. -/
theorem missing_or_empty_rejected_first (inp : PyInput)
    (h : isMissingOrEmpty inp = true) :
    pretty_oof_result inp = Except.error CVErr.missingInput ∨
    pretty_oof_result inp = Except.error CVErr.emptyInput := by
  cases inp with
  | missing => exact Or.inl rfl
  | arr b =>
    right
    have hbad : b.h = 0 ∨ b.w = 0 ∨ b.c = 0 := by
      simp only [isMissingOrEmpty, Bool.or_eq_true, decide_eq_true_eq] at h
      tauto
    show pipelineStages b = Except.error CVErr.emptyInput
    have hpre : preThreshold b = .error CVErr.emptyInput := by
      unfold preThreshold
      rw [if_pos hbad]
    exact pipelineStages_pre_err b _ hpre

/-- C9 witness: the amended claim at the missing input. -/
theorem missing_or_empty_rejected_first_witness :
    pretty_oof_result PyInput.missing = Except.error CVErr.missingInput ∨
    pretty_oof_result PyInput.missing = Except.error CVErr.emptyInput :=
  missing_or_empty_rejected_first PyInput.missing rfl

/-- C10: a multi-channel input never yields a mask.  No grayscale
conversion exists in the pipeline, every stage before the threshold
keeps the channel count, and the adaptive-threshold stage rejects any
buffer whose channel count is not 1. -/
theorem multichannel_never_returns (b : Buf) (hc : 2 ≤ b.c) :
    (∀ m : Buf, pretty_oof_result (PyInput.arr b) ≠ Except.ok m) ∧
    adaptiveThresholdMean b 149 21 = Except.error CVErr.badSrcType := by
  constructor
  · intro m hm
    have hm2 : pipelineStages b = Except.ok m := hm
    cases hpre : preThreshold b with
    | error e =>
      rw [pipelineStages_pre_err b e hpre] at hm2
      cases hm2
    | ok b6 =>
      rw [pipelineStages_pre_ok b b6 hpre] at hm2
      have hc6 : b6.c = b.c := (preThreshold_ok b b6 hpre).2.2
      have hth : adaptiveThresholdMean b6 149 21 = Except.error CVErr.badSrcType := by
        unfold adaptiveThresholdMean
        rw [if_pos (by omega)]
      rw [hth] at hm2
      cases hm2
  · unfold adaptiveThresholdMean
    rw [if_pos (by omega)]

/-- C10 witness: the three-channel image ex3ch. -/
theorem multichannel_never_returns_witness :
    (∀ m : Buf, pretty_oof_result (PyInput.arr ex3ch) ≠ Except.ok m) ∧
    adaptiveThresholdMean ex3ch 149 21 = Except.error CVErr.badSrcType :=
  multichannel_never_returns ex3ch (by decide)
